import Mathlib

/-!
Shallow embedding of the rpkirtr RPKI-to-Router cache server, together with
proofs settling the specification claims about it.

The embedding translates the Go sources: `common.go` (ROA model, diff engine,
ASN parsing), `server.go` (cache state, refresh step), `clients.go` (per-client
reply paths, PDU framing) and `pdu.go` (PDU codec, header checks).

Conventions:
  - Go machine integers (`uint8`, `uint16`, `uint32`, `int`) are embedded as
    `Nat`/`Int` with explicit `% 2^w` at the operations where Go wraps.
  - Go strings are byte strings; all inputs relevant here are ASCII, so they
    are embedded as `String`/`List Char`.
  - A Go `map[string]roa` is embedded as an association list with unique keys;
    insertion overwrites the value of an existing key, as Go does.  Go's map
    iteration order is unspecified; the embedding iterates in first-insertion
    order, which is immaterial to every claim proved here (all are about the
    underlying sets or list lengths).
  - Fallible operations return `Except`/`Option`; a Go panic is `none`.
-/

namespace Rpkirtr

/-- Decidable equality for `Except`, used to evaluate the fallible operations
on concrete inputs. -/
instance {ε α : Type _} [DecidableEq ε] [DecidableEq α] :
    DecidableEq (Except ε α) := fun x y =>
  match x, y with
  | .ok a, .ok b =>
      if h : a = b then .isTrue (h ▸ rfl)
      else .isFalse (fun hh => h (Except.ok.inj hh))
  | .error a, .error b =>
      if h : a = b then .isTrue (h ▸ rfl)
      else .isFalse (fun hh => h (Except.error.inj hh))
  | .ok _, .error _ => .isFalse (fun hh => Except.noConfusion hh)
  | .error _, .ok _ => .isFalse (fun hh => Except.noConfusion hh)

/-- An IP prefix: family discriminator, address (as a 32- or 128-bit natural)
and the mask length.  Embeds `netaddr.IPPrefix` as used by the `roa` struct. -/
structure IpPfx where
  v4 : Bool
  addr : Nat
  bits : Nat
  deriving DecidableEq

/-- The converted ROA struct of `server.go`:
`type roa struct { Prefix netaddr.IPPrefix; MaxMask uint8; ASN uint32 }`.
(The `Prefix` field is named `Pfx` here.) -/
structure Roa where
  Pfx : IpPfx
  MaxMask : Nat
  ASN : Nat
  deriving DecidableEq

/-- `serialDiff` of `server.go`: the retained diff between consecutive cache
revisions. -/
structure SerialDiff where
  oldSerial : Nat
  newSerial : Nat
  delRoa : List Roa
  addRoa : List Roa
  diff : Bool
  deriving DecidableEq

/-! ### Prefix rendering (`roa.Prefix.IPNet().String()`)

`roasToMap` keys each ROA by `fmt.Sprintf("%s%d%d", prefixString, MaxMask,
ASN)`.  The prefix string is Go's `net.IPNet.String()`: dotted-quad for v4,
RFC 5952 compressed lowercase hex for v6, followed by `/bits`. -/

/-- One 16-bit group in lowercase hex without leading zeros. -/
def hexGroup (n : Nat) : String :=
  ⟨Nat.toDigits 16 n⟩

/-- Length of the leading run of zero groups. -/
def zeroRunLen : List Nat → Nat
  | 0 :: t => 1 + zeroRunLen t
  | _ => 0

/-- Leftmost longest run (length at least 2) of zero groups, as
(start index, length); `none` when no such run exists.  Mirrors the zero-run
search in Go's `net.IP.String()`, including that a single zero group is never
compressed and that ties keep the leftmost run. -/
def bestZeroRunAux : List Nat → Nat → Option (Nat × Nat) → Option (Nat × Nat)
  | [], _, best => best
  | g :: t, i, best =>
    let l := if g = 0 then 1 + zeroRunLen t else 0
    let best' :=
      match best with
      | none => if 2 ≤ l then some (i, l) else none
      | some (s, bl) => if bl < l then some (i, l) else some (s, bl)
    bestZeroRunAux t (i + 1) best'

def bestZeroRun (gs : List Nat) : Option (Nat × Nat) :=
  bestZeroRunAux gs 0 none

/-- The eight 16-bit groups of a 128-bit v6 address. -/
def v6Groups (addr : Nat) : List Nat :=
  [addr / 2 ^ 112 % 2 ^ 16, addr / 2 ^ 96 % 2 ^ 16, addr / 2 ^ 80 % 2 ^ 16,
   addr / 2 ^ 64 % 2 ^ 16, addr / 2 ^ 48 % 2 ^ 16, addr / 2 ^ 32 % 2 ^ 16,
   addr / 2 ^ 16 % 2 ^ 16, addr % 2 ^ 16]

def joinColon (parts : List String) : String :=
  String.join (parts.intersperse ":")

/-- RFC 5952 rendering of a v6 address, as Go's `net.IP.String()` does it. -/
def v6String (addr : Nat) : String :=
  let gs := v6Groups addr
  match bestZeroRun gs with
  | none => joinColon (gs.map hexGroup)
  | some (s, l) =>
      joinColon ((gs.take s).map hexGroup) ++ "::" ++
        joinColon ((gs.drop (s + l)).map hexGroup)

/-- Dotted-quad rendering of a 32-bit v4 address. -/
def v4String (addr : Nat) : String :=
  toString (addr / 2 ^ 24 % 2 ^ 8) ++ "." ++ toString (addr / 2 ^ 16 % 2 ^ 8) ++
    "." ++ toString (addr / 2 ^ 8 % 2 ^ 8) ++ "." ++ toString (addr % 2 ^ 8)

/-- `roa.Prefix.IPNet().String()`: the CIDR string of the prefix. -/
def pfxString (p : IpPfx) : String :=
  (if p.v4 then v4String p.addr else v6String p.addr) ++ "/" ++ toString p.bits

/-! ### `roasToMap` and `makeDiff` (`common.go`) -/

/-- The formatted map key of `roasToMap`:
`fmt.Sprintf("%s%d%d", roa.Prefix.IPNet().String(), roa.MaxMask, roa.ASN)` —
note there is no separator between the three parts. -/
def roaKey (r : Roa) : String :=
  pfxString r.Pfx ++ toString r.MaxMask ++ toString r.ASN

/-- Whether the map holds key `k` (`_, ok := m[k]`). -/
def mapContains (m : List (String × Roa)) (k : String) : Bool :=
  m.any (fun e => e.1 = k)

/-- Go map insertion `m[k] = v`: overwrite the entry of an existing key,
otherwise append a new entry. -/
def mapInsert (m : List (String × Roa)) (k : String) (v : Roa) :
    List (String × Roa) :=
  if mapContains m k then m.map (fun e => if e.1 = k then (k, v) else e)
  else m ++ [(k, v)]

/-- `roasToMap` of `common.go`: build the keyed map from a ROA slice. -/
def roasToMap (rs : List Roa) : List (String × Roa) :=
  rs.foldl (fun m r => mapInsert m (roaKey r) r) []

/-- `makeDiff` of `common.go`: the ROAs to add (in `new` but not `old`) and to
delete (in `old` but not `new`), keyed by `roaKey`; `diff` is set exactly when
either list is nonempty; the serial labels are `serial` and `serial + 1` with
`uint32` wraparound. -/
def makeDiff (new old : List Roa) (serial : Nat) : SerialDiff :=
  let newm := roasToMap new
  let oldm := roasToMap old
  let addROA := (newm.filter (fun e => !mapContains oldm e.1)).map (fun e => e.2)
  let delROA := (oldm.filter (fun e => !mapContains newm e.1)).map (fun e => e.2)
  { oldSerial := serial
    newSerial := (serial + 1) % 2 ^ 32
    addRoa := addROA
    delRoa := delROA
    diff := decide (0 < addROA.length) || decide (0 < delROA.length) }

/-! ### Validation and set construction (`common.go`) -/

/-- `(*roa).isValid` of `common.go` (RFC 6482 §3.3 checks). -/
def isValid (r : Roa) : Bool :=
  if r.MaxMask = 0 then false
  else if r.MaxMask < r.Pfx.bits then false
  else if r.Pfx.v4 && decide (32 < r.MaxMask) then false
  else if 128 < r.MaxMask then false
  else true

/-- Loop body accumulator of `GetSetOfValidatedROAs`: `m` is the
already-seen set, `u` the accumulated output. -/
def getSetAux : List Roa → List Roa → List Roa → List Roa
  | [], _, u => u
  | r :: t, m, u =>
      if r ∈ m then getSetAux t m u
      else getSetAux t (r :: m) (if isValid r then u ++ [r] else u)

/-- `GetSetOfValidatedROAs` of `common.go`: drop duplicates (by full struct
equality) and invalid entries, keeping first-seen order. -/
def GetSetOfValidatedROAs (rs : List Roa) : List Roa :=
  getSetAux rs [] []

/-! ### Cache state and refresh step (`server.go`) -/

/-- The shared cache data the reply paths read: the `client` struct of
`clients.go` holds pointers `roas`, `serial`, `diff` into this state. -/
structure CacheState where
  roas : List Roa
  serial : Nat
  diff : SerialDiff
  deriving DecidableEq

/-- The success path of one `updateROAs` iteration in `server.go`: compute the
diff of the freshly fetched set against the current one, then increment the
serial (with `uint32` wraparound) and swap in the fetched set.  The serial is
incremented unconditionally, whether or not the diff is empty. -/
def updateROAs (s : CacheState) (fetched : List Roa) : CacheState :=
  { diff := makeDiff fetched s.roas s.serial
    serial := (s.serial + 1) % 2 ^ 32
    roas := fetched }

/-- The session id chosen in `run()` of `server.go`:
`session: uint16(rand.IntN(65535))`, applied to the generator's draw. -/
def startupSessionId (draw : Nat) : Nat :=
  draw % 65535

/-! ### Client reply paths (`clients.go`)

Each reply path is embedded as the list of PDUs it writes to the client's
connection, in write order. -/

/-- Flag values of `pdu.go`. -/
def withdraw : Nat := 0

def announce : Nat := 1

/-- Default End Of Data interval constants of `server.go`
(`refresh`/`retry`/`expire`), used by `sendRoa`. -/
def refresh : Nat := 3600

def retry : Nat := 600

def expire : Nat := 7200

/-- The PDUs the server writes, with the fields each carries. -/
inductive PduOut where
  | cacheResponse (sessionID : Nat)
  | ipv4Pfx (flags min max : Nat) (pfx : IpPfx) (asn : Nat)
  | ipv6Pfx (flags min max : Nat) (pfx : IpPfx) (asn : Nat)
  | endOfData (session serial refresh retry expire : Nat)
  | cacheReset
  | serialNotify (session serial : Nat)
  deriving DecidableEq

/-- `writePrefixPDU` of `clients.go`: emit an IPv4 or IPv6 prefix PDU for the
ROA, carrying the given flag, the prefix length as min, `MaxMask` as max, the
prefix and the ASN. -/
def writePrefixPDU (r : Roa) (flag : Nat) : PduOut :=
  if r.Pfx.v4 then .ipv4Pfx flag r.Pfx.bits r.MaxMask r.Pfx r.ASN
  else .ipv6Pfx flag r.Pfx.bits r.MaxMask r.Pfx r.ASN

/-- `(*client).sendReset`: a single Cache Reset PDU. -/
def sendReset : List PduOut := [.cacheReset]

/-- `(*client).sendDiff`: Cache Response, then — only when the diff flag is
set — the diff's additions as announce prefix PDUs and deletions as withdraw
prefix PDUs, then End Of Data with hardcoded intervals 900/30/171999. -/
def sendDiff (c : CacheState) (d : SerialDiff) (session : Nat) : List PduOut :=
  [.cacheResponse session] ++
    (if d.diff then
      d.addRoa.map (fun r => writePrefixPDU r announce) ++
        d.delRoa.map (fun r => writePrefixPDU r withdraw)
     else []) ++
    [.endOfData session c.serial 900 30 171999]

/-- `(*client).sendEmpty`: Cache Response then End Of Data with hardcoded
intervals 900/30/171999; no prefix PDUs. -/
def sendEmpty (c : CacheState) (session : Nat) : List PduOut :=
  [.cacheResponse session, .endOfData session c.serial 900 30 171999]

/-- `(*client).sendRoa`: draws a fresh `rand.Intn(100)` value as the session
id, then sends Cache Response, every current ROA as an announce prefix PDU,
and End Of Data with the default intervals.  `randDraw` is the generator's
draw. -/
def sendRoa (c : CacheState) (randDraw : Nat) : List PduOut :=
  let session := randDraw % 100
  [.cacheResponse session] ++
    c.roas.map (fun r => writePrefixPDU r announce) ++
    [.endOfData session c.serial refresh retry expire]

/-- `(*client).notify`: a Serial Notify PDU with the given serial and session
(the caller in `updateROAs` passes the server's `session` field). -/
def notify (serial session : Nat) : List PduOut :=
  [.serialNotify session serial]

/-- The decoded Serial Query PDU (`serialQueryPDU`). -/
structure SerialQueryPDU where
  Session : Nat
  Length : Nat
  Serial : Nat
  deriving DecidableEq

/-- The serial-query branch of `handleClient` in `clients.go`: compare the
query's serial against the retained diff's `newSerial`; send a Cache Reset if
it is neither that value nor one less (with `uint32` wraparound), the empty
reply if it is equal, and the diff reply if it is one less.  The three `if`
statements of the source run in sequence; their outputs concatenate. -/
def handleSerialQuery (c : CacheState) (q : SerialQueryPDU) : List PduOut :=
  let serial := c.diff.newSerial
  let prev := (serial + (2 ^ 32 - 1)) % 2 ^ 32
  (if q.Serial ≠ serial ∧ q.Serial ≠ prev then sendReset else []) ++
    (if q.Serial = serial then sendEmpty c q.Session else []) ++
    (if q.Serial = prev then sendDiff c c.diff q.Session else [])

/-! ### PDU framing (`getPDU` of `pdu.go` and `clients.go`)

The reader is embedded as the list of bytes it will deliver. -/

/-- Read errors of the framing layer.  `malformedLength` is the error the
specification names for a bad length field; the embedded code never produces
it. -/
inductive IoErr where
  | eof
  | shortRead
  | malformedLength
  deriving DecidableEq

/-- `io.ReadFull r buf` with `n = len(buf)`: returns the bytes and the rest of
the stream; `eof` when the stream is empty, a short-read error when it ends
before `n` bytes. -/
def readFull (n : Nat) (s : List Nat) : Except IoErr (List Nat × List Nat) :=
  if n ≤ s.length then .ok (s.take n, s.drop n)
  else if s.length = 0 then .error .eof
  else .error .shortRead

/-- `binary.BigEndian.Uint32`. -/
def be32 (b0 b1 b2 b3 : Nat) : Nat :=
  b0 * 2 ^ 24 + b1 * 2 ^ 16 + b2 * 2 ^ 8 + b3

def minPDULength : Nat := 8

/-- The payload computation of `getPDU` after the header read: extract the
32-bit length field from `buf[4:8]`, subtract 8 with `uint32` wraparound
(there is no check that the length field is at least 8), and when the result
is positive read exactly that many payload bytes, returning header ++ payload. -/
def getPDUBody (buf rest : List Nat) : Except IoErr (List Nat) :=
  if 0 < (be32 (buf.getD 4 0) (buf.getD 5 0) (buf.getD 6 0) (buf.getD 7 0) +
      (2 ^ 32 - 8)) % 2 ^ 32 then
    (readFull
        ((be32 (buf.getD 4 0) (buf.getD 5 0) (buf.getD 6 0) (buf.getD 7 0) +
          (2 ^ 32 - 8)) % 2 ^ 32) rest).map
      fun dr => buf ++ dr.1
  else .ok buf

/-- `getPDU`: read exactly 8 header bytes, then `getPDUBody` computes
`length := binary.BigEndian.Uint32(buf[4:8]) - 8` and reads the payload.
Go's early `return nil, err` on a failed read is `Except` propagation. -/
def getPDU (stream : List Nat) : Except IoErr (List Nat) :=
  (readFull minPDULength stream).bind fun br => getPDUBody br.1 br.2

/-! ### Header decoding (`decodePDUHeader` of `pdu.go`) -/

structure HeaderPDU where
  Version : Nat
  Ptype : Nat
  deriving DecidableEq

inductive HdrErr where
  | tooShort
  | unsupportedVersion
  | versionMismatch
  | invalidPduType
  deriving DecidableEq

def supportedVersions : List Nat := [1, 2]

def headPDULength : Nat := 2

/-- `decodePDUHeader(pdu, ver, new)` of `pdu.go`: reject short slices, then a
version byte outside `supportedVersions`, then — on a non-first PDU — a
version differing from the latched one, then a PDU type that is 5 or greater
than 10. -/
def decodePDUHeader (pdu : List Nat) (ver : Nat) (isNew : Bool) :
    Except HdrErr HeaderPDU :=
  if pdu.length < headPDULength then .error .tooShort
  else
    let v := pdu.getD 0 0
    let t := pdu.getD 1 0
    if supportedVersions.contains v = false then .error .unsupportedVersion
    else if isNew = false ∧ v ≠ ver then .error .versionMismatch
    else if 10 < t ∨ t = 5 then .error .invalidPduType
    else .ok { Version := v, Ptype := t }

/-! ### Error Report serialization (`errorReportPDU.serialize` of `pdu.go`) -/

/-- The values `errorReportPDU.serialize` hands to `binary.Write`, with their
Go types. -/
inductive GoBinValue where
  | u8 (n : Nat)
  | u16 (n : Nat)
  | u32 (n : Nat)
  | goInt (n : Int)
  | goString (s : List Char)

/-- `binary.Write(wr, binary.BigEndian, v)`: fixed-size values are written
big-endian; Go `int` and `string` have no fixed size, so `binary.Write`
returns an error having written nothing. -/
def binWrite : GoBinValue → Option (List Nat)
  | .u8 n => some [n % 2 ^ 8]
  | .u16 n => some [n / 2 ^ 8 % 2 ^ 8, n % 2 ^ 8]
  | .u32 n =>
      some [n / 2 ^ 24 % 2 ^ 8, n / 2 ^ 16 % 2 ^ 8, n / 2 ^ 8 % 2 ^ 8, n % 2 ^ 8]
  | .goInt _ => none
  | .goString _ => none

/-- `errorReportPDU.serialize`: seven consecutive `binary.Write` calls whose
errors are discarded — version and type as `uint8`, the code as `uint16`, the
total length `128 + len(report)` as `int`, the encapsulated-PDU length as
`uint32(0)`, the report length as `int`, and the report text as `string`.
The bytes actually emitted are the concatenation of the successful writes.
(The report is ASCII in all uses, so characters stand for bytes.) -/
def errorReportSerialize (code : Nat) (report : List Char) : List Nat :=
  let reportLength : Int := report.length
  let totalLength : Int := 128 + reportLength
  ([GoBinValue.u8 1, .u8 10, .u16 code, .goInt totalLength, .u32 0,
      .goInt reportLength, .goString report].map
    (fun v => (binWrite v).getD [])).flatten

/-! ### ASN parsing (`asnToUint32` of `common.go`) -/

/-- Decimal value of a digit string (the accumulation loop of Go's
`strconv.ParseInt`). -/
def digitsVal (ds : List Char) : Nat :=
  ds.foldl (fun acc d => acc * 10 + (d.toNat - 48)) 0

/-- Digits-and-range part of `strconv.Atoi` (= `ParseInt(s, 10, 0)` on a
64-bit platform): after the optional sign, the rest must be nonempty decimal
digits and the value must fit in `int64`. -/
def atoiDigits (ds : List Char) (neg : Bool) : Except Unit Int :=
  if ds = [] then .error ()
  else if ds.all Char.isDigit then
    let v := digitsVal ds
    if neg then
      if (v : Int) ≤ 2 ^ 63 then .ok (-(v : Int)) else .error ()
    else
      if v < 2 ^ 63 then .ok ((v : Int)) else .error ()
  else .error ()

/-- `strconv.Atoi`: optional `+`/`-` sign, then decimal digits. -/
def atoi : List Char → Except Unit Int
  | [] => .error ()
  | c :: cs =>
    if c = '-' then atoiDigits cs true
    else if c = '+' then atoiDigits cs false
    else atoiDigits (c :: cs) false

/-- Extractor used to state timer properties: the refresh/retry/expire triple
of an End Of Data PDU, `none` for every other PDU. -/
def eodTimers : PduOut → Option (Nat × Nat × Nat)
  | .endOfData _ _ r t e => some (r, t, e)
  | _ => none

/-- `asnToUint32` of `common.go`: `strconv.Atoi(a[2:])`, returning
`uint32(n)` on success and 0 (with a logged warning) on an `Atoi` error.
The slice `a[2:]` panics when the string is shorter than two bytes, which the
embedding renders as `none`. -/
def asnToUint32 (a : List Char) : Option Nat :=
  if a.length < 2 then none
  else
    match atoi (a.drop 2) with
    | .ok n => some ((n % 2 ^ 32).toNat)
    | .error _ => some 0

/-! ## Theorems settling the claims -/

lemma mapContains_iff_entry (m : List (String × Roa)) (k : String) :
    mapContains m k = true ↔ ∃ e ∈ m, e.1 = k := by
  simp [mapContains, List.any_eq_true]

lemma mapContains_mapInsert (m : List (String × Roa)) (k' k : String) (v : Roa) :
    mapContains (mapInsert m k' v) k = (mapContains m k || decide (k' = k)) := by
  unfold mapInsert
  by_cases hc : mapContains m k' = true
  · have hmap : mapContains (m.map (fun e => if e.1 = k' then (k', v) else e)) k
        = mapContains m k := by
      rw [Bool.eq_iff_iff, mapContains_iff_entry, mapContains_iff_entry]
      constructor
      · rintro ⟨e, he, hek⟩
        obtain ⟨e0, he0, rfl⟩ := List.mem_map.1 he
        refine ⟨e0, he0, ?_⟩
        by_cases h0 : e0.1 = k' <;> simp_all
      · rintro ⟨e, he, hek⟩
        refine ⟨if e.1 = k' then (k', v) else e, List.mem_map_of_mem _ he, ?_⟩
        by_cases h0 : e.1 = k' <;> simp_all
    rw [if_pos hc, hmap]
    by_cases hk : k' = k
    · subst hk
      simp [hc]
    · simp [hk]
  · rw [if_neg hc]
    simp [mapContains, List.any_append]

lemma mapContains_foldl (l : List Roa) (m : List (String × Roa)) (k : String) :
    mapContains (l.foldl (fun acc r => mapInsert acc (roaKey r) r) m) k =
      (mapContains m k || l.any (fun r => decide (roaKey r = k))) := by
  induction l generalizing m with
  | nil => simp
  | cons r t ih =>
      simp only [List.foldl_cons, List.any_cons, ih, mapContains_mapInsert,
        Bool.or_assoc]

lemma keyMem_iff (l : List Roa) (k : String) :
    mapContains (roasToMap l) k = true ↔ ∃ r ∈ l, roaKey r = k := by
  have h := mapContains_foldl l [] k
  simp only [roasToMap]
  rw [h]
  simp [mapContains, List.any_eq_true]

lemma filter_missing_eq_nil_iff (a b : List Roa) :
    ((roasToMap a).filter (fun e => !mapContains (roasToMap b) e.1) = []) ↔
      ∀ k, (∃ r ∈ a, roaKey r = k) → (∃ r ∈ b, roaKey r = k) := by
  rw [List.filter_eq_nil_iff]
  constructor
  · intro h k hk
    obtain ⟨e, he, hek⟩ := (mapContains_iff_entry _ _).1 ((keyMem_iff a k).2 hk)
    have hb := h e he
    simp only [Bool.not_eq_true', Bool.not_eq_false] at hb
    exact (keyMem_iff b k).1 (hek ▸ hb)
  · intro h e he
    have ha : mapContains (roasToMap a) e.1 = true :=
      (mapContains_iff_entry _ _).2 ⟨e, he, rfl⟩
    have hb := (keyMem_iff b e.1).2 (h e.1 ((keyMem_iff a e.1).1 ha))
    simp [hb]

lemma makeDiff_diff_false_iff (new old : List Roa) (s : Nat) :
    (makeDiff new old s).diff = false ↔
      ∀ k, (∃ r ∈ new, roaKey r = k) ↔ (∃ r ∈ old, roaKey r = k) := by
  show (decide _ || decide _) = false ↔ _
  rw [Bool.or_eq_false_iff, decide_eq_false_iff_not, decide_eq_false_iff_not,
    Nat.not_lt, Nat.not_lt, Nat.le_zero, Nat.le_zero, List.length_eq_zero,
    List.length_eq_zero, List.map_eq_nil_iff, List.map_eq_nil_iff,
    filter_missing_eq_nil_iff, filter_missing_eq_nil_iff]
  constructor
  · rintro ⟨h1, h2⟩ k
    exact ⟨h1 k, h2 k⟩
  · intro h
    exact ⟨fun k => (h k).1, fun k => (h k).2⟩

/-- Claim C1 (amended): for every two ROA lists and every serial `S`,
`makeDiff` labels its result with `oldSerial = S` and
`newSerial = (S + 1) mod 2^32`, and its `diff` flag is `false` exactly when
the two lists cover the same set of `roasToMap` key strings.  (Key-set
equality — not equality of the validated, deduplicated ROA-value sets:
`makeDiff` performs no validation, and distinct ROAs can collide on one
key.) -/
theorem makeDiff_serial_labels_and_diff_flag (new old : List Roa) (s : Nat) :
    (makeDiff new old s).oldSerial = s ∧
    (makeDiff new old s).newSerial = (s + 1) % 2 ^ 32 ∧
    ((makeDiff new old s).diff = false ↔
      ∀ k, (∃ r ∈ new, roaKey r = k) ↔ (∃ r ∈ old, roaKey r = k)) :=
  ⟨rfl, rfl, makeDiff_diff_false_iff new old s⟩

/-- Claim C1 counterexample: a list holding one invalid ROA (max length 0)
and the empty list have equal validated-deduplicated sets (both empty), yet
`makeDiff` reports `diff = true`, refuting the claimed equivalence. -/
theorem makeDiff_validated_sets_counterexample :
    GetSetOfValidatedROAs [(⟨⟨true, 167772160, 24⟩, 0, 1⟩ : Roa)] =
        GetSetOfValidatedROAs ([] : List Roa) ∧
      (makeDiff [(⟨⟨true, 167772160, 24⟩, 0, 1⟩ : Roa)] [] 0).diff = true :=
  ⟨by decide, by decide⟩

/-- Claim C10 (amended): whenever two ROA lists differ in their sets of
`roasToMap` key strings, `makeDiff` reports `diff = true`.  (The original
claim's premise — that ROAs differing in any field always get distinct
keys — fails; see the counterexample.) -/
theorem makeDiff_reports_key_set_difference (new old : List Roa) (s : Nat)
    (h : ¬ ∀ k, (∃ r ∈ new, roaKey r = k) ↔ (∃ r ∈ old, roaKey r = k)) :
    (makeDiff new old s).diff = true := by
  rcases hb : (makeDiff new old s).diff with _ | _
  · exact absurd ((makeDiff_diff_false_iff new old s).1 hb) h
  · rfl

/-- Witness for claim C10: `[0.0.0.0/0, max 1, AS23]` versus the empty list
has differing key sets, so `makeDiff` reports a change. -/
theorem makeDiff_reports_key_set_difference_witness :
    (makeDiff [(⟨⟨true, 0, 0⟩, 1, 23⟩ : Roa)] [] 0).diff = true :=
  makeDiff_reports_key_set_difference _ _ 0 (fun hall => by
    obtain ⟨r2, hr2, -⟩ := (hall (roaKey ⟨⟨true, 0, 0⟩, 1, 23⟩)).1
      ⟨_, List.mem_singleton_self _, rfl⟩
    exact absurd hr2 (List.not_mem_nil _))

/-- Claim C10 counterexample: the ROAs `(0.0.0.0/0, max 1, AS23)` and
`(0.0.0.0/0, max 12, AS3)` differ in max length and ASN yet produce the same
key `"0.0.0.0/0123"` (the format concatenates without separators), and
`makeDiff` consequently reports no change between them. -/
theorem roaKey_not_injective_counterexample :
    roaKey (⟨⟨true, 0, 0⟩, 1, 23⟩ : Roa) = roaKey (⟨⟨true, 0, 0⟩, 12, 3⟩ : Roa) ∧
      (⟨⟨true, 0, 0⟩, 1, 23⟩ : Roa) ≠ (⟨⟨true, 0, 0⟩, 12, 3⟩ : Roa) ∧
      (makeDiff [(⟨⟨true, 0, 0⟩, 1, 23⟩ : Roa)]
        [(⟨⟨true, 0, 0⟩, 12, 3⟩ : Roa)] 0).diff = false :=
  ⟨by decide, by decide, by decide⟩

/-- Claim C4: after every successful refresh step, the cache serial equals
the previous serial plus 1 modulo 2^32 — also when the computed diff is
empty, since `updateROAs` increments unconditionally — and the retained
diff's `newSerial` equals the new serial (its `oldSerial` the previous
one). -/
theorem updateROAs_serial_advance (st : CacheState) (fetched : List Roa) :
    (updateROAs st fetched).serial = (st.serial + 1) % 2 ^ 32 ∧
    (updateROAs st fetched).diff.newSerial = (updateROAs st fetched).serial ∧
    (updateROAs st fetched).diff.oldSerial = st.serial :=
  ⟨rfl, rfl, rfl⟩

/-- Claim C3 (code bug): the session id is not stable.  `sendRoa` draws a
fresh `rand.Intn(100)` value per Reset Query reply and ignores the
process-wide session chosen at startup: two replies in one run carry the
unequal session ids 5 and 6 when the generator yields 5 and then 6. -/
theorem sendRoa_fresh_random_session :
    sendRoa ⟨[], 9, makeDiff [] [] 8⟩ 5 =
        [.cacheResponse 5, .endOfData 5 9 3600 600 7200] ∧
      sendRoa ⟨[], 9, makeDiff [] [] 8⟩ 6 =
        [.cacheResponse 6, .endOfData 6 9 3600 600 7200] ∧
      (5 : Nat) ≠ 6 :=
  ⟨by decide, by decide, by decide⟩

-- Helper facts about the End Of Data extractor.
lemma eodTimers_writePrefixPDU (r : Roa) (f : Nat) :
    eodTimers (writePrefixPDU r f) = none := by
  unfold writePrefixPDU
  split <;> rfl

lemma eodTimers_endOfData (a b r t e : Nat) :
    eodTimers (.endOfData a b r t e) = some (r, t, e) := rfl

lemma eodTimers_cacheResponse (s : Nat) :
    eodTimers (.cacheResponse s) = none := rfl

lemma filterMap_eod_prefixPDUs (l : List Roa) (f : Nat) :
    l.filterMap (eodTimers ∘ fun r => writePrefixPDU r f) = [] := by
  induction l with
  | nil => rfl
  | cons r t ih =>
      simp [List.filterMap_cons, Function.comp, eodTimers_writePrefixPDU r f, ih]

/-- Claim C7 (amended): only the full reset reply (`sendRoa`) carries the
default timers refresh = 3600, retry = 600, expire = 7200; the empty
serial-query reply (`sendEmpty`) and the diff reply (`sendDiff`) hardcode
900/30/171999 in their End Of Data PDUs. -/
theorem endOfData_timers_per_path (c : CacheState) (d : SerialDiff)
    (randDraw session : Nat) :
    (sendRoa c randDraw).filterMap eodTimers = [(refresh, retry, expire)] ∧
      refresh = 3600 ∧ retry = 600 ∧ expire = 7200 ∧
      (sendEmpty c session).filterMap eodTimers = [(900, 30, 171999)] ∧
      (sendDiff c d session).filterMap eodTimers = [(900, 30, 171999)] := by
  refine ⟨?_, rfl, rfl, rfl, rfl, ?_⟩
  · simp [sendRoa, List.filterMap_append, filterMap_eod_prefixPDUs,
      List.filterMap_cons, eodTimers_endOfData, eodTimers_cacheResponse]
  · rcases hd : d.diff with _ | _ <;>
      simp [sendDiff, hd, List.filterMap_append, filterMap_eod_prefixPDUs,
        List.filterMap_cons, eodTimers_endOfData, eodTimers_cacheResponse]

/-- Claim C7 counterexample: the End Of Data PDU of an empty serial-query
reply carries (900, 30, 171999), not the claimed (3600, 600, 7200). -/
theorem endOfData_timers_counterexample :
    (sendEmpty ⟨[], 9, makeDiff [] [] 8⟩ 3).filterMap eodTimers =
        [(900, 30, 171999)] ∧
      ¬((900, 30, 171999) = ((3600 : Nat), (600 : Nat), (7200 : Nat))) :=
  ⟨by decide, by decide⟩

/-- Claim C9 (code bug): `errorReportPDU.serialize` passes Go `int` values
for the total length and text length and a `string` for the text to
`binary.Write`, which rejects all three and writes nothing (errors are
discarded).  The emitted bytes are only version, type, code and the zero
encapsulated-PDU length — 8 bytes, with no header length field at all — so
no well-formed Error Report PDU is produced. -/
theorem errorReportSerialize_drops_length_fields (code : Nat)
    (report : List Char) :
    errorReportSerialize code report =
        [1, 10, code / 2 ^ 8 % 2 ^ 8, code % 2 ^ 8, 0, 0, 0, 0] ∧
      (errorReportSerialize code report).length = 8 := by
  constructor
  · simp [errorReportSerialize, binWrite]
  · simp [errorReportSerialize, binWrite]



/-- Claim C2: a Serial Query whose serial equals the retained diff's
`newSerial` (the cache's current serial) gets Cache Response then End Of
Data with no prefix PDUs; one equal to the current serial minus 1 (mod 2^32)
gets Cache Response, the retained diff's additions as announce prefix PDUs,
its deletions as withdraw prefix PDUs, then End Of Data; any other serial
gets a single Cache Reset.  The hypothesis is the `makeDiff` invariant that
an unset `diff` flag means empty add and del lists. -/
theorem handleSerialQuery_replies (c : CacheState) (q : SerialQueryPDU)
    (hwf : c.diff.diff = false → c.diff.addRoa = [] ∧ c.diff.delRoa = []) :
    (q.Serial = c.diff.newSerial →
      handleSerialQuery c q =
        [.cacheResponse q.Session,
          .endOfData q.Session c.serial 900 30 171999]) ∧
    (q.Serial = (c.diff.newSerial + (2 ^ 32 - 1)) % 2 ^ 32 →
      handleSerialQuery c q =
        [.cacheResponse q.Session] ++
          c.diff.addRoa.map (fun r => writePrefixPDU r announce) ++
          c.diff.delRoa.map (fun r => writePrefixPDU r withdraw) ++
          [.endOfData q.Session c.serial 900 30 171999]) ∧
    (q.Serial ≠ c.diff.newSerial →
      q.Serial ≠ (c.diff.newSerial + (2 ^ 32 - 1)) % 2 ^ 32 →
      handleSerialQuery c q = [.cacheReset]) := by
  have hne : ¬ (c.diff.newSerial = (c.diff.newSerial + (2 ^ 32 - 1)) % 2 ^ 32) := by
    omega
  refine ⟨?_, ?_, ?_⟩
  · intro h
    have h3 : ¬ q.Serial = (c.diff.newSerial + (2 ^ 32 - 1)) % 2 ^ 32 := by
      rw [h]; exact hne
    simp only [handleSerialQuery, sendReset, sendEmpty]
    rw [if_neg (fun hh => hh.1 h), if_pos h, if_neg h3]
    simp
  · intro h
    have h1 : ¬ q.Serial = c.diff.newSerial := by
      rw [h]; exact fun hh => hne hh.symm
    simp only [handleSerialQuery, sendReset, sendDiff]
    rw [if_neg (fun hh => hh.2 h), if_neg h1, if_pos h]
    rcases hd : c.diff.diff with _ | _
    · obtain ⟨ha, hb⟩ := hwf hd
      simp [ha, hb]
    · simp
  · intro h1 h2
    simp only [handleSerialQuery, sendReset]
    rw [if_pos ⟨h1, h2⟩, if_neg h1, if_neg h2]
    simp

/-- Witness for claim C2: a query carrying the current serial of a concrete
cache state receives exactly Cache Response then End Of Data. -/
theorem handleSerialQuery_replies_witness :
    handleSerialQuery ⟨[], 5, makeDiff [] [] 4⟩ ⟨7, 12, 5⟩ =
      [.cacheResponse 7, .endOfData 7 5 900 30 171999] :=
  (handleSerialQuery_replies ⟨[], 5, makeDiff [] [] 4⟩ ⟨7, 12, 5⟩
    (by decide)).1 (by decide)

-- Reduction of getPDU on a stream with at least a header.
lemma exceptBind_ok {ε α β : Type} (a : α) (f : α → Except ε β) :
    Except.bind (.ok a) f = f a := rfl

lemma getPDU_cons (h0 h1 h2 h3 b4 b5 b6 b7 : Nat) (rest : List Nat) :
    getPDU (h0 :: h1 :: h2 :: h3 :: b4 :: b5 :: b6 :: b7 :: rest) =
      if 0 < (be32 b4 b5 b6 b7 + (2 ^ 32 - 8)) % 2 ^ 32 then
        (readFull ((be32 b4 b5 b6 b7 + (2 ^ 32 - 8)) % 2 ^ 32) rest).map
          (fun dr => [h0, h1, h2, h3, b4, b5, b6, b7] ++ dr.1)
      else .ok [h0, h1, h2, h3, b4, b5, b6, b7] := by
  have hrf : readFull minPDULength
      (h0 :: h1 :: h2 :: h3 :: b4 :: b5 :: b6 :: b7 :: rest) =
        .ok ([h0, h1, h2, h3, b4, b5, b6, b7], rest) := by
    have hlen : minPDULength ≤
        (h0 :: h1 :: h2 :: h3 :: b4 :: b5 :: b6 :: b7 :: rest).length := by
      simp [minPDULength]
    rw [readFull, if_pos hlen]
    rfl
  have hstep : getPDU (h0 :: h1 :: h2 :: h3 :: b4 :: b5 :: b6 :: b7 :: rest) =
      getPDUBody [h0, h1, h2, h3, b4, b5, b6, b7] rest := by
    rw [getPDU, hrf, exceptBind_ok]
  have e4 : ([h0, h1, h2, h3, b4, b5, b6, b7] : List Nat).getD 4 0 = b4 := rfl
  have e5 : ([h0, h1, h2, h3, b4, b5, b6, b7] : List Nat).getD 5 0 = b5 := rfl
  have e6 : ([h0, h1, h2, h3, b4, b5, b6, b7] : List Nat).getD 6 0 = b6 := rfl
  have e7 : ([h0, h1, h2, h3, b4, b5, b6, b7] : List Nat).getD 7 0 = b7 := rfl
  rw [hstep, getPDUBody, e4, e5, e6, e7]

/-- Claim C5 (amended): `getPDU` reads exactly 8 header bytes and computes
`remaining = (length - 8) mod 2^32` with `uint32` wraparound — there is no
malformed-length check.  `remaining = 0` happens exactly for `length = 8`;
for `length < 8` the subtraction wraps to `2^32 - 8 + length`, so `getPDU`
attempts to read that many payload bytes.  When `remaining > 0` it reads
exactly `remaining` bytes, returning header ++ payload, and fails with an
EOF or short-read error — never a malformed-length error — when the stream
is shorter. -/
theorem getPDU_wrapped_length_spec
    (h0 h1 h2 h3 b4 b5 b6 b7 : Nat) (rest : List Nat)
    (hb4 : b4 < 256) (hb5 : b5 < 256) (hb6 : b6 < 256) (hb7 : b7 < 256) :
    ((be32 b4 b5 b6 b7 + (2 ^ 32 - 8)) % 2 ^ 32 = 0 ↔ be32 b4 b5 b6 b7 = 8) ∧
    (be32 b4 b5 b6 b7 < 8 →
      (be32 b4 b5 b6 b7 + (2 ^ 32 - 8)) % 2 ^ 32 =
        2 ^ 32 - 8 + be32 b4 b5 b6 b7) ∧
    (be32 b4 b5 b6 b7 = 8 →
      getPDU (h0 :: h1 :: h2 :: h3 :: b4 :: b5 :: b6 :: b7 :: rest) =
        .ok [h0, h1, h2, h3, b4, b5, b6, b7]) ∧
    (∀ R, R = (be32 b4 b5 b6 b7 + (2 ^ 32 - 8)) % 2 ^ 32 → 0 < R →
      (R ≤ rest.length →
        getPDU (h0 :: h1 :: h2 :: h3 :: b4 :: b5 :: b6 :: b7 :: rest) =
          .ok (h0 :: h1 :: h2 :: h3 :: b4 :: b5 :: b6 :: b7 :: rest.take R)) ∧
      (rest.length < R →
        getPDU (h0 :: h1 :: h2 :: h3 :: b4 :: b5 :: b6 :: b7 :: rest) =
          .error (if rest.length = 0 then .eof else .shortRead) ∧
        getPDU (h0 :: h1 :: h2 :: h3 :: b4 :: b5 :: b6 :: b7 :: rest) ≠
          .error .malformedLength)) := by
  have hbe : be32 b4 b5 b6 b7 < 2 ^ 32 := by
    simp only [be32]
    omega
  refine ⟨?_, ?_, ?_, ?_⟩
  · constructor
    · intro h
      omega
    · intro h
      rw [h]
      omega
  · intro h
    omega
  · intro h
    have hR : (be32 b4 b5 b6 b7 + (2 ^ 32 - 8)) % 2 ^ 32 = 0 := by
      rw [h]
      omega
    rw [getPDU_cons, hR]
    simp
  · intro R hR hpos
    constructor
    · intro hle
      rw [getPDU_cons, ← hR, if_pos hpos, readFull, if_pos hle]
      rfl
    · intro hlt
      rw [getPDU_cons, ← hR, if_pos hpos, readFull, if_neg (by omega)]
      by_cases h0 : rest.length = 0 <;> simp [h0, Except.map]

/-- Witness for claim C5: a PDU with length field 12 followed by 4 payload
bytes is read back whole. -/
theorem getPDU_wrapped_length_spec_witness :
    getPDU (1 :: 1 :: 0 :: 0 :: 0 :: 0 :: 0 :: 12 :: [9, 8, 7, 6]) =
      .ok (1 :: 1 :: 0 :: 0 :: 0 :: 0 :: 0 :: 12 ::
        List.take ((be32 0 0 0 12 + (2 ^ 32 - 8)) % 2 ^ 32) [9, 8, 7, 6]) :=
  ((getPDU_wrapped_length_spec 1 1 0 0 0 0 0 12 [9, 8, 7, 6] (by decide)
      (by decide) (by decide) (by decide)).2.2.2
    ((be32 0 0 0 12 + (2 ^ 32 - 8)) % 2 ^ 32) rfl (by decide)).1 (by decide)

/-- Claim C5 counterexample: on a header whose length field is 0 (less than
8) followed by one byte, `getPDU` attempts a payload read and fails with a
short-read error, not with a malformed-length error and not without reading
a payload. -/
theorem getPDU_no_malformed_length_counterexample :
    getPDU [1, 1, 0, 0, 0, 0, 0, 0, 99] = .error .shortRead ∧
      IoErr.shortRead ≠ IoErr.malformedLength :=
  ⟨by decide, by decide⟩


-- The supported-versions membership test, propositionally.
lemma supportedVersions_contains_iff (v : Nat) :
    supportedVersions.contains v = true ↔ (v = 1 ∨ v = 2) := by
  simp [supportedVersions]

/-- Claim C6: `decodePDUHeader` rejects every version byte other than 1 or
2 with an error; PDU types equal to 5 or greater than 10 are also rejected
with an error; and on a first PDU (version not yet latched) acceptance holds
exactly for a supported version and a valid type.  Every accepted header
has version 1 or 2 and a type that is neither 5 nor above 10. -/
theorem decodePDUHeader_spec (v t : Nat) (rest : List Nat) (ver : Nat)
    (isNew : Bool) :
    (¬(v = 1 ∨ v = 2) →
      decodePDUHeader (v :: t :: rest) ver isNew = .error .unsupportedVersion) ∧
    ((v = 1 ∨ v = 2) → (isNew = true ∨ v = ver) → (t = 5 ∨ 10 < t) →
      decodePDUHeader (v :: t :: rest) ver isNew = .error .invalidPduType) ∧
    ((v = 1 ∨ v = 2) → t ≠ 5 → t ≤ 10 →
      decodePDUHeader (v :: t :: rest) ver true = .ok ⟨v, t⟩) ∧
    (∀ h, decodePDUHeader (v :: t :: rest) ver isNew = .ok h →
      (v = 1 ∨ v = 2) ∧ h.Version = v ∧ h.Ptype = t ∧ t ≠ 5 ∧ t ≤ 10) := by
  have hlen : ¬ ((v :: t :: rest).length < headPDULength) := by
    simp [headPDULength]
  refine ⟨?_, ?_, ?_, ?_⟩
  · intro hv
    have hc : supportedVersions.contains ((v :: t :: rest).getD 0 0) = false := by
      simp only [List.getD_cons_zero]
      rcases hb : supportedVersions.contains v with _ | _
      · rfl
      · exact absurd ((supportedVersions_contains_iff v).1 hb) hv
    rw [decodePDUHeader, if_neg hlen, if_pos hc]
  · intro hv hlatch ht
    have hc : ¬ (supportedVersions.contains ((v :: t :: rest).getD 0 0) = false) := by
      simp only [List.getD_cons_zero]
      rw [(supportedVersions_contains_iff v).2 hv]
      decide
    have hl : ¬ (isNew = false ∧ (v :: t :: rest).getD 0 0 ≠ ver) := by
      simp only [List.getD_cons_zero]
      rintro ⟨hn, hne⟩
      rcases hlatch with h | h
      · rw [h] at hn
        cases hn
      · exact hne h
    have htt : 10 < (v :: t :: rest).getD 1 0 ∨ (v :: t :: rest).getD 1 0 = 5 := by
      simp only [List.getD_cons_succ, List.getD_cons_zero]
      rcases ht with h | h
      · exact Or.inr h
      · exact Or.inl h
    rw [decodePDUHeader, if_neg hlen, if_neg hc, if_neg hl, if_pos htt]
  · intro hv ht5 ht10
    have hc : ¬ (supportedVersions.contains ((v :: t :: rest).getD 0 0) = false) := by
      simp only [List.getD_cons_zero]
      rw [(supportedVersions_contains_iff v).2 hv]
      decide
    have hl : ¬ ((true : Bool) = false ∧ (v :: t :: rest).getD 0 0 ≠ ver) := by
      rintro ⟨hn, -⟩
      cases hn
    have htt : ¬ (10 < (v :: t :: rest).getD 1 0 ∨ (v :: t :: rest).getD 1 0 = 5) := by
      simp only [List.getD_cons_succ, List.getD_cons_zero]
      rintro (h | h)
      · omega
      · exact ht5 h
    rw [decodePDUHeader, if_neg hlen, if_neg hc, if_neg hl, if_neg htt]
    simp only [List.getD_cons_zero, List.getD_cons_succ]
  · intro h hok
    rw [decodePDUHeader, if_neg hlen] at hok
    simp only [List.getD_cons_zero, List.getD_cons_succ] at hok
    by_cases hc : supportedVersions.contains v = false
    · rw [if_pos hc] at hok
      cases hok
    · rw [if_neg hc] at hok
      have hv : v = 1 ∨ v = 2 := by
        rcases hb : supportedVersions.contains v with _ | _
        · exact absurd hb hc
        · exact (supportedVersions_contains_iff v).1 hb
      by_cases hl : isNew = false ∧ v ≠ ver
      · rw [if_pos hl] at hok
        cases hok
      · rw [if_neg hl] at hok
        by_cases htt : 10 < t ∨ t = 5
        · rw [if_pos htt] at hok
          cases hok
        · rw [if_neg htt] at hok
          push_neg at htt
          cases hok
          exact ⟨hv, rfl, rfl, htt.2, htt.1⟩

/-- Witness for claim C6: version 1, type 2 (Reset Query) is accepted on a
first PDU. -/
theorem decodePDUHeader_spec_witness :
    decodePDUHeader [1, 2] 9 true = .ok ⟨1, 2⟩ :=
  (decodePDUHeader_spec 1 2 [] 9 true).2.2.1 (Or.inl rfl) (by decide) (by decide)

/-- Claim C8 (amended): for "AS" followed by decimal digits of a 32-bit
value, `asnToUint32` returns that value, the same value `strconv.Atoi`
yields on the bare digits.  For any other string of length at least 2 it
returns `uint32` of whatever `Atoi` makes of the suffix after the first two
bytes — not necessarily 0 — and 0 only when that parse fails; strings
shorter than 2 bytes make the slice `a[2:]` panic. -/
theorem asnToUint32_spec :
    (∀ ds : List Char, ds ≠ [] → (∀ ch ∈ ds, ch.isDigit) →
      digitsVal ds < 2 ^ 32 →
      asnToUint32 ('A' :: 'S' :: ds) = some (digitsVal ds) ∧
        atoi ds = .ok (digitsVal ds)) ∧
    (∀ a : List Char, a.length < 2 → asnToUint32 a = none) ∧
    (∀ a : List Char, 2 ≤ a.length → atoi (a.drop 2) = .error () →
      asnToUint32 a = some 0) ∧
    (∀ (a : List Char) (n : Int), 2 ≤ a.length → atoi (a.drop 2) = .ok n →
      asnToUint32 a = some ((n % 2 ^ 32).toNat)) := by
  refine ⟨?_, ?_, ?_, ?_⟩
  · intro ds hne hd hlt
    obtain ⟨c, cs, rfl⟩ := List.exists_cons_of_ne_nil hne
    have hcd : c.isDigit = true := hd c (List.mem_cons_self c cs)
    have hc1 : ¬ c = '-' := by
      intro h
      rw [h] at hcd
      exact absurd hcd (by decide)
    have hc2 : ¬ c = '+' := by
      intro h
      rw [h] at hcd
      exact absurd hcd (by decide)
    have hall : (c :: cs).all Char.isDigit = true :=
      List.all_eq_true.2 (fun x hx => hd x hx)
    have hatoi : atoi (c :: cs) = .ok (digitsVal (c :: cs)) := by
      rw [atoi, if_neg hc1, if_neg hc2, atoiDigits,
        if_neg (List.cons_ne_nil c cs), if_pos hall]
      simp only [Bool.false_eq_true, if_false]
      rw [if_pos (by exact_mod_cast Nat.lt_trans hlt (by norm_num))]
    refine ⟨?_, hatoi⟩
    rw [asnToUint32, if_neg (by simp)]
    have hdrop : ('A' :: 'S' :: c :: cs).drop 2 = c :: cs := rfl
    rw [hdrop, hatoi]
    have h0 : (0 : Int) ≤ (digitsVal (c :: cs) : Int) := Int.natCast_nonneg _
    have hlt2 : (digitsVal (c :: cs) : Int) < 2 ^ 32 := by exact_mod_cast hlt
    show some (((digitsVal (c :: cs) : Int) % 2 ^ 32).toNat) =
      some (digitsVal (c :: cs))
    rw [Int.emod_eq_of_lt h0 hlt2]
    simp
  · intro a h
    rw [asnToUint32, if_pos h]
  · intro a hlen herr
    rw [asnToUint32, if_neg (by omega), herr]
  · intro a n hlen hok
    rw [asnToUint32, if_neg (by omega), hok]

/-- Witness for claim C8: `asnToUint32 "AS123"` is 123, as is
`Atoi "123"`. -/
theorem asnToUint32_spec_witness :
    asnToUint32 ('A' :: 'S' :: ['1', '2', '3']) = some (digitsVal ['1', '2', '3']) ∧
      atoi ['1', '2', '3'] = .ok (digitsVal ['1', '2', '3']) :=
  asnToUint32_spec.1 ['1', '2', '3'] (by decide) (by decide) (by decide)

/-- Claim C8 counterexample: the input "XY123" is not "AS" ++ digits, yet
`asnToUint32` returns 123 rather than the claimed 0. -/
theorem asnToUint32_counterexample :
    asnToUint32 ('X' :: 'Y' :: ['1', '2', '3']) = some 123 ∧ (123 : Nat) ≠ 0 :=
  ⟨by decide, by decide⟩

end Rpkirtr
